import Mathlib

/-!
Verification of the frame-time statistics engine in
scripts/analyze_frametimes.py.

Embedding conventions:
* Frame durations (nanoseconds) and state tags are the integers parsed
  from the log rows; per the frame-record data model they are
  non-negative, so they are embedded as Nat.
* Python float arithmetic (numpy sums, averages, percentiles, divisions)
  is embedded as exact rational arithmetic over ℚ.
* `int(x)` applied to a non-negative float is embedded as Nat.floor /
  Nat division.
* File I/O is out of scope: `FrameTimeResult.from_file` is modelled from
  the point where the CSV reader has produced the data rows (the header
  line is already skipped), each row being the list of its integer
  fields.  A Python assertion failure or exception aborting the parse is
  modelled by Option.none.
-/

namespace AnalyzeFrametimes

/-- FrameTimeResult.NanosPerSecond. -/
def NanosPerSecond : ℕ := 10 ^ 9

/-- FrameTimeResult.NonosPerMilli (name kept from the source). -/
def NonosPerMilli : ℕ := 10 ^ 6

/-- FrameTimeResult.MillisPerSecond. -/
def MillisPerSecond : ℕ := 10 ^ 3

/-- FrameTimeResult.TargetFPS. -/
def TargetFPS : ℕ := 45

/-- FrameTimeResult.TargetFrameTime = NanosPerSecond / TargetFPS
(true float division in Python, hence a rational here). -/
def TargetFrameTime : ℚ := (NanosPerSecond : ℚ) / (TargetFPS : ℚ)

/-- Linear interpolation between order statistics at fractional rank `r`
(numpy `percentile`, default "linear" method): with `i = floor r`, the
value is `s[i] + (r - i) * (s[min (i+1) (n-1)] - s[i])`. -/
def interpAt (s : List ℚ) (r : ℚ) : ℚ :=
  s.getD (Int.toNat ⌊r⌋) 0 +
    (r - (Int.toNat ⌊r⌋ : ℚ)) *
      (s.getD (min (Int.toNat ⌊r⌋ + 1) (s.length - 1)) 0 - s.getD (Int.toNat ⌊r⌋) 0)

/-- `np.percentile(data, p)` for an integer percentile `p` on non-empty
data: interpolate the sorted data at rank `p / 100 * (n - 1)`. -/
def percentile (data : List ℚ) (p : ℕ) : ℚ :=
  interpAt data.mergeSort ((p : ℚ) / 100 * ((data.length : ℚ) - 1))

/-- `np.percentile` including its error path: on an empty array numpy
raises IndexError (modelled by `none`); otherwise it returns the
interpolated percentile. -/
def percentile? (data : List ℚ) (p : ℕ) : Option ℚ :=
  match data with
  | [] => none
  | _ :: _ => some (percentile data p)

/-- The `percentile_frametime_ms` table: `np.percentile(raw, p) /
NonosPerMilli` for `p in range(100)`. -/
def percentileTable (durations : List ℕ) : List ℚ :=
  (List.range 100).map
    (fun p => percentile (durations.map (fun f : ℕ => (f : ℚ))) p / (NonosPerMilli : ℚ))

/-- The parsing loop of `FrameTimeResult.from_file`: every data row must
have exactly two integer fields (`assert len(row) == 2`), duration then
state; a row of any other shape aborts parsing with no partial result. -/
def parseRows : List (List ℕ) → Option (List (ℕ × ℕ))
  | [] => some []
  | row :: rest =>
    match row with
    | [d, s] => (parseRows rest).map (fun frames => (d, s) :: frames)
    | _ => none

/-- The `drop_first_seconds` loop: the number of frames strictly before
the first frame whose cumulative duration (from `curr`) reaches `thr`;
when no frame reaches it, all frames are counted. -/
def dropEnd (thr : ℕ) : ℕ → List ℕ → ℕ
  | _, [] => 0
  | curr, f :: rest =>
    if thr ≤ curr + f then 0 else dropEnd thr (curr + f) rest + 1

/-- Drop-front on a duration sequence: `raw_frametimes[drop_end:]`. -/
def dropFront (thr : ℕ) (frames : List ℕ) : List ℕ :=
  frames.drop (dropEnd thr 0 frames)

/-- Drop-front with an optional seconds threshold, as in `from_file`
(`drop_first_nanos = drop_first_seconds * NanosPerSecond`). -/
def dropFrontOpt : Option ℕ → List ℕ → List ℕ
  | none, frames => frames
  | some secs, frames => dropFront (secs * NanosPerSecond) frames

/-- Drop-front on (duration, state) pairs: the cut index is computed
from the durations and both parallel sequences are sliced with it. -/
def dropFrontPairs (thr : ℕ) (frames : List (ℕ × ℕ)) : List (ℕ × ℕ) :=
  frames.drop (dropEnd thr 0 (frames.map Prod.fst))

def dropFrontPairsOpt : Option ℕ → List (ℕ × ℕ) → List (ℕ × ℕ)
  | none, frames => frames
  | some secs, frames => dropFrontPairs (secs * NanosPerSecond) frames

/-- The `gameplay_duration` loop: `first_frame_to_discard` counts frames
up to and including the first one whose cumulative duration exceeds the
target; when none exceeds it, all frames are counted. -/
def keepCount (thr : ℕ) : ℕ → List ℕ → ℕ
  | _, [] => 0
  | curr, f :: rest =>
    if thr < curr + f then 1 else keepCount thr (curr + f) rest + 1

/-- Duration-cap on (duration, state) pairs:
`raw_frametimes[:first_frame_to_discard]`. -/
def durationCapPairs (thr : ℕ) (frames : List (ℕ × ℕ)) : List (ℕ × ℕ) :=
  frames.take (keepCount thr 0 (frames.map Prod.fst))

def durationCapPairsOpt : Option ℕ → List (ℕ × ℕ) → List (ℕ × ℕ)
  | none, frames => frames
  | some secs, frames => durationCapPairs (secs * NanosPerSecond) frames

/-- One `state_to_duration_ms` dict update: add `v` milliseconds to key
`s`, inserting the key at the end on first sight (Python dict insertion
order is modelled by an association list). -/
def updateState : List (ℕ × ℚ) → ℕ → ℚ → List (ℕ × ℚ)
  | [], s, v => [(s, v)]
  | (k, w) :: rest, s, v =>
    if k = s then (k, w + v) :: rest else (k, w) :: updateState rest s v

/-- The per-state duration accounting of the parse loop, over all parsed
frames (it runs before the `continue` of the `gameplay_state` filter). -/
def stateDurations (frames : List (ℕ × ℕ)) : List (ℕ × ℚ) :=
  frames.foldl (fun m p => updateState m p.2 ((p.1 : ℚ) / (NonosPerMilli : ℚ))) []

/-- A FrameTimeResult (the path-derived naming fields are out of
scope). -/
structure Run where
  raw_frametimes : List ℕ
  frame_states : List ℕ
  state_to_duration_ms : List (ℕ × ℚ)
  total_duration_ms : ℚ
  average_frametime_ms : ℚ
  percentile_frametime_ms : List ℚ

/-- `FrameTimeResult.from_file` after CSV parsing: per-state accounting
over all parsed frames, then the optional `gameplay_state` filter, then
`drop_first_seconds`, then `gameplay_duration`, then the derived
statistics. -/
def buildRun (gameplay_state gameplay_duration drop_first_seconds : Option ℕ)
    (frames : List (ℕ × ℕ)) : Run :=
  let stateMap := stateDurations frames
  let kept :=
    match gameplay_state with
    | none => frames
    | some gs => frames.filter (fun p => p.2 == gs)
  let kept1 := dropFrontPairsOpt drop_first_seconds kept
  let kept2 := durationCapPairsOpt gameplay_duration kept1
  let raw := kept2.map Prod.fst
  { raw_frametimes := raw
    frame_states := kept2.map Prod.snd
    state_to_duration_ms := stateMap
    total_duration_ms := ((raw.sum : ℕ) : ℚ) / (NonosPerMilli : ℚ)
    average_frametime_ms := ((raw.sum : ℚ) / (raw.length : ℚ)) / (NonosPerMilli : ℚ)
    percentile_frametime_ms := percentileTable raw }

/-- `FrameTimeResult.from_file` (file I/O elided): parse the data rows,
then construct the result. -/
def from_rows (rows : List (List ℕ))
    (gameplay_state gameplay_duration drop_first_seconds : Option ℕ) : Option Run :=
  (parseRows rows).map (buildRun gameplay_state gameplay_duration drop_first_seconds)

/-- `p50` / `median` (the table-length assert is a proved invariant). -/
def median (r : Run) : ℚ := r.percentile_frametime_ms.getD 50 0

def p90 (r : Run) : ℚ := r.percentile_frametime_ms.getD 90 0

def p95 (r : Run) : ℚ := r.percentile_frametime_ms.getD 95 0

/-- `percent_missed` on a duration sequence: the average of the
per-frame indicator `1 if x > TargetFrameTime else 0`, times 100. -/
def percent_missed_of (durations : List ℕ) : ℚ :=
  ((durations.map (fun x : ℕ => if TargetFrameTime < (x : ℚ) then (1 : ℚ) else 0)).sum /
    (durations.length : ℚ)) * 100

def percent_missed (r : Run) : ℚ := percent_missed_of r.raw_frametimes

/-- `time_in_state`: seconds spent in `state_idx`; 0 when the state was
never observed. -/
def time_in_state (r : Run) (state_idx : ℕ) : ℚ :=
  match r.state_to_duration_ms.find? (fun p => p.1 == state_idx) with
  | some p => p.2 / (MillisPerSecond : ℚ)
  | none => 0

/-- The `fps_over_time` loop body: each frame bumps the count of bucket
`(cumulative duration) / NanosPerSecond` and overwrites the state of
that bucket.  (An out-of-range index, impossible for a constructed run,
is a no-op here where Python would raise.) -/
def fpsGo : List (ℕ × ℕ) → ℕ → List (ℕ × ℕ) → List (ℕ × ℕ)
  | bins, _, [] => bins
  | bins, curr, (f, s) :: rest =>
    fpsGo
      (bins.set ((curr + f) / NanosPerSecond)
        ((bins.getD ((curr + f) / NanosPerSecond) (0, 0)).1 + 1, s))
      (curr + f) rest

/-- `fps_over_time`: `int(total_duration_ms / 1000) + 1` buckets,
initialised to `(0, 0)`, filled by the loop over the zipped frame
durations and states. -/
def fps_over_time (r : Run) : List (ℕ × ℕ) :=
  fpsGo (List.replicate (Nat.floor (r.total_duration_ms / 1000) + 1) (0, 0)) 0
    (r.raw_frametimes.zip r.frame_states)

inductive SummaryKind where
  | ABSOLUTE
  | RELATIVE
deriving DecidableEq

structure FrameTimesSummaryFn where
  name : String
  fn : List ℚ → ℚ
  kind : SummaryKind

def data_low (data : List ℚ) : ℚ := percentile data 5

def data_high (data : List ℚ) : ℚ := percentile data 95

/-- `data_low` with the np.percentile error path: raises (`none`) on an
empty list. -/
def data_low? (data : List ℚ) : Option ℚ := percentile? data 5

/-- `data_high` with the np.percentile error path: raises (`none`) on
an empty list. -/
def data_high? (data : List ℚ) : Option ℚ := percentile? data 95

def relative_noise (data : List ℚ) : ℚ :=
  |data_low data - data_high data| / data_low data * 100

/-- The FrameTimesMetrics tuple computed for one summary function, as
the six (field-name, value) pairs in field order; each value aggregates
a per-run series taken over all input `results`. -/
def summaryRow (results : List Run) (sf : FrameTimesSummaryFn) : List (String × ℚ) :=
  [("avg", sf.fn (results.map (fun x => x.average_frametime_ms))),
   ("median", sf.fn (results.map median)),
   ("p90", sf.fn (results.map p90)),
   ("p95", sf.fn (results.map p95)),
   ("missed_percent", sf.fn (results.map percent_missed)),
   ("init_time", sf.fn (results.map (fun x => time_in_state x 0)))]

/-- One `metric_to_summaries` dict update: append the (summary-fn,
value) pair under `key`, inserting the key at the end on first sight. -/
def addSummaryEntry : List (String × List (FrameTimesSummaryFn × ℚ)) → String →
    FrameTimesSummaryFn × ℚ → List (String × List (FrameTimesSummaryFn × ℚ))
  | [], key, v => [(key, [v])]
  | (k, vs) :: rest, key, v =>
    if k = key then (k, vs ++ [v]) :: rest else (k, vs) :: addSummaryEntry rest key v

/-- `summarize_frame_times`, error path included: the stable-subset
computation (`considered_results`) is performed exactly as in the
source — in particular `data_low(medians)` / `data_high(medians)` call
np.percentile, which raises on an empty dataset (`none`) — and the
aggregation loop then iterates over `results`. -/
def summarize_frame_times (results : List Run) (summary_fns : List FrameTimesSummaryFn) :
    Option (List (String × List (FrameTimesSummaryFn × ℚ))) :=
  let sorted_results := results.mergeSort (fun a b => median a ≤ median b)
  let medians := sorted_results.map median
  match data_low? medians, data_high? medians with
  | some low_median, some high_median =>
    let considered_results :=
      sorted_results.filter (fun x => low_median < median x && median x < high_median)
    let considered_results :=
      if considered_results.length = 0 then sorted_results else considered_results
    some (summary_fns.foldl
      (fun m sf =>
        (summaryRow results sf).foldl (fun m kv => addSummaryEntry m kv.1 (sf, kv.2)) m)
      [])
  | _, _ => none

/-- The closed-form cross-run summary over all input runs, with no
stable-subset computation: one entry per metric field, holding, for
every summary function, its aggregate of the per-run series of that
metric.  (Stated from the spec, as the variant `summarize_frame_times`
is claimed to refine.) -/
def summarize_frame_times_all_runs (results : List Run)
    (summary_fns : List FrameTimesSummaryFn) :
    List (String × List (FrameTimesSummaryFn × ℚ)) :=
  [("avg", summary_fns.map (fun sf => (sf, sf.fn (results.map (fun x => x.average_frametime_ms))))),
   ("median", summary_fns.map (fun sf => (sf, sf.fn (results.map median)))),
   ("p90", summary_fns.map (fun sf => (sf, sf.fn (results.map p90)))),
   ("p95", summary_fns.map (fun sf => (sf, sf.fn (results.map p95)))),
   ("missed_percent", summary_fns.map (fun sf => (sf, sf.fn (results.map percent_missed)))),
   ("init_time", summary_fns.map (fun sf => (sf, sf.fn (results.map (fun x => time_in_state x 0)))))]

/-- `summarize_frame_times` with the stable-subset computation removed
(the variant the refinement claim compares against): only the
aggregation loop over `results` remains. -/
def summarize_frame_times_no_stable_subset (results : List Run)
    (summary_fns : List FrameTimesSummaryFn) :
    List (String × List (FrameTimesSummaryFn × ℚ)) :=
  summary_fns.foldl
    (fun m sf =>
      (summaryRow results sf).foldl (fun m kv => addSummaryEntry m kv.1 (sf, kv.2)) m)
    []

/-- `sum(state_to_duration_ms.values())`. -/
def stateDurationSum (r : Run) : ℚ := (r.state_to_duration_ms.map Prod.snd).sum

/-- Default run used to model the (never-taken, for a non-empty
dataset) out-of-range list access in the representative selection. -/
def emptyRun : Run :=
  { raw_frametimes := []
    frame_states := []
    state_to_duration_ms := []
    total_duration_ms := 0
    average_frametime_ms := 0
    percentile_frametime_ms := [] }

/-- The representative-run selection in `main`: sort by median
ascending, return the runs at indices `int(n * 0.05)`, `n // 2`, and
`int(n * 0.95)` (the float products are exact here, so `int(n * 0.05)`
is `n * 5 / 100` in integer division). -/
def select_representatives (results : List Run) : Run × Run × Run :=
  let sorted_results := results.mergeSort (fun a b => median a ≤ median b)
  let n := sorted_results.length
  (sorted_results.getD (n * 5 / 100) emptyRun,
   sorted_results.getD (n / 2) emptyRun,
   sorted_results.getD (n * 95 / 100) emptyRun)

/-! ### Window filter: drop-front -/

theorem dropEnd_eq (thr : ℕ) (frames : List ℕ) :
    ∀ curr k : ℕ, k < frames.length →
      thr ≤ curr + (frames.take (k + 1)).sum →
      (∀ j, j < k → curr + (frames.take (j + 1)).sum < thr) →
      dropEnd thr curr frames = k := by
  induction frames with
  | nil => intro curr k hk; simp at hk
  | cons f rest ih =>
    intro curr k hk hcross hmin
    by_cases h : thr ≤ curr + f
    · have hk0 : k = 0 := by
        by_contra hne
        have h0 := hmin 0 (Nat.pos_of_ne_zero hne)
        simp at h0
        omega
      simp [dropEnd, h, hk0]
    · match k with
      | 0 =>
        exfalso
        simp at hcross
        omega
      | k' + 1 =>
        have hrec : dropEnd thr (curr + f) rest = k' := by
          apply ih
          · simpa using Nat.lt_of_succ_lt_succ hk
          · simp only [List.take_succ_cons, List.sum_cons] at hcross
            omega
          · intro j hj
            have hj1 := hmin (j + 1) (by omega)
            simp only [List.take_succ_cons, List.sum_cons] at hj1
            omega
        simp [dropEnd, h, hrec]

/-- C2: for a frame sequence with a crossing frame `k` (the first frame
whose cumulative duration reaches `t * 1e9` nanoseconds), drop-front
drops exactly the `k` frames strictly before it, keeping the crossing
frame; and with a threshold of 0, or unset, it returns the input frame
sequence unchanged. -/
theorem drop_front_drops_exactly_precross (t : ℕ) (frames : List ℕ) (k : ℕ)
    (hk : k < frames.length)
    (hcross : t * NanosPerSecond ≤ (frames.take (k + 1)).sum)
    (hmin : ∀ j, j < k → (frames.take (j + 1)).sum < t * NanosPerSecond) :
    dropFront (t * NanosPerSecond) frames = frames.drop k ∧
      (∀ fs : List ℕ, dropFront 0 fs = fs) ∧
      (∀ fs : List ℕ, dropFrontOpt none fs = fs) := by
  refine ⟨?_, ?_, fun fs => rfl⟩
  · unfold dropFront
    rw [dropEnd_eq (t * NanosPerSecond) frames 0 k hk (by simpa using hcross)
      (fun j hj => by simpa using hmin j hj)]
  · intro fs
    cases fs with
    | nil => rfl
    | cons f rest => simp [dropFront, dropEnd]

theorem drop_front_drops_exactly_precross_witness :
    (1 < ([600000000, 600000000] : List ℕ).length ∧
        1 * NanosPerSecond ≤ (([600000000, 600000000] : List ℕ).take (1 + 1)).sum ∧
        ∀ j, j < 1 → (([600000000, 600000000] : List ℕ).take (j + 1)).sum <
          1 * NanosPerSecond) ∧
      (dropFront (1 * NanosPerSecond) [600000000, 600000000] =
          ([600000000, 600000000] : List ℕ).drop 1 ∧
        (∀ fs : List ℕ, dropFront 0 fs = fs) ∧
        (∀ fs : List ℕ, dropFrontOpt none fs = fs)) :=
  ⟨⟨by decide, by decide, by decide⟩,
    drop_front_drops_exactly_precross 1 [600000000, 600000000] 1 (by decide) (by decide)
      (by decide)⟩

/-- C5 counterexample: drop-front at a fixed threshold is not
idempotent: on [0.6s, 0.6s, 0.6s] with threshold 1 second, one
application keeps the last two frames, a second application drops one
more. -/
theorem drop_front_not_idempotent :
    dropFront (1 * NanosPerSecond)
        (dropFront (1 * NanosPerSecond) [600000000, 600000000, 600000000]) ≠
      dropFront (1 * NanosPerSecond) [600000000, 600000000, 600000000] := by
  decide

/-- C5 amended: on a frame sequence already past the cutoff — one whose
first frame (if any) alone reaches the `t * 1e9` nanosecond threshold —
drop-front changes nothing, so applying it twice with the same threshold
yields the same sequence as applying it once. -/
theorem drop_front_idempotent_past_cutoff (t : ℕ) (frames : List ℕ)
    (h : ∀ f ∈ frames.head?, t * NanosPerSecond ≤ f) :
    dropFront (t * NanosPerSecond) (dropFront (t * NanosPerSecond) frames) =
      dropFront (t * NanosPerSecond) frames := by
  have hnoop : dropFront (t * NanosPerSecond) frames = frames := by
    cases frames with
    | nil => rfl
    | cons f rest =>
      have hf := h f (by simp)
      simp [dropFront, dropEnd, hf]
  simp [hnoop]

theorem drop_front_idempotent_past_cutoff_witness :
    (∀ f ∈ ([1500000000, 600000000] : List ℕ).head?, 1 * NanosPerSecond ≤ f) ∧
      dropFront (1 * NanosPerSecond)
          (dropFront (1 * NanosPerSecond) [1500000000, 600000000]) =
        dropFront (1 * NanosPerSecond) [1500000000, 600000000] :=
  ⟨by decide, drop_front_idempotent_past_cutoff 1 [1500000000, 600000000] (by decide)⟩

/-! ### Log parsing -/

theorem parseRows_all_two (rows : List (List ℕ)) (h : ∀ row ∈ rows, row.length = 2) :
    parseRows rows = some (rows.map (fun row => (row.getD 0 0, row.getD 1 0))) := by
  induction rows with
  | nil => rfl
  | cons row rest ih =>
    obtain ⟨a, b, rfl⟩ := List.length_eq_two.mp (h row (by simp))
    rw [show parseRows ([a, b] :: rest) =
      (parseRows rest).map (fun frames => (a, b) :: frames) from rfl]
    rw [ih (fun r hr => h r (List.mem_cons_of_mem _ hr))]
    rfl

theorem parseRows_bad_row (rows : List (List ℕ)) (h : ∃ row ∈ rows, row.length ≠ 2) :
    parseRows rows = none := by
  induction rows with
  | nil => simp at h
  | cons row rest ih =>
    rcases h with ⟨r, hr, hlen⟩
    rcases List.mem_cons.mp hr with rfl | hmem
    · cases r with
      | nil => rfl
      | cons d tl =>
        cases tl with
        | nil => rfl
        | cons s tl2 =>
          cases tl2 with
          | nil => exact absurd rfl hlen
          | cons x tl3 => rfl
    · have hrest : parseRows rest = none := ih ⟨r, hmem, hlen⟩
      cases row with
      | nil => rfl
      | cons d tl =>
        cases tl with
        | nil => rfl
        | cons s tl2 =>
          cases tl2 with
          | nil =>
            rw [show parseRows ([d, s] :: rest) =
              (parseRows rest).map (fun frames => (d, s) :: frames) from rfl]
            rw [hrest]
            rfl
          | cons x tl3 => rfl

/-- C8 counterexample: a well-formed single-column log (one data row
holding one integer) does not parse; the parser aborts, where the claim
says it succeeds with one frame record per data row. -/
theorem parse_rows_rejects_single_column : parseRows [[10000000]] = none := rfl

/-- C8 amended: the parser accepts only the two-column row shape: when
every data row has exactly two fields, parsing succeeds and yields one
frame record per data row in input order; when any row has a field
count other than 2, parsing fails for the whole file with no partial
result. -/
theorem parse_rows_two_column_only (rows : List (List ℕ)) :
    ((∀ row ∈ rows, row.length = 2) →
        parseRows rows = some (rows.map (fun row => (row.getD 0 0, row.getD 1 0)))) ∧
      ((∃ row ∈ rows, row.length ≠ 2) → parseRows rows = none) :=
  ⟨fun h => parseRows_all_two rows h, fun h => parseRows_bad_row rows h⟩

theorem parse_rows_two_column_only_witness :
    parseRows [[7, 0], [8, 1]] =
        some (([[7, 0], [8, 1]] : List (List ℕ)).map
          (fun row => (row.getD 0 0, row.getD 1 0))) ∧
      parseRows [[7]] = none :=
  ⟨(parse_rows_two_column_only [[7, 0], [8, 1]]).1 (by decide),
    (parse_rows_two_column_only [[7]]).2 (by decide)⟩

/-! ### Missed-frame percentage -/

theorem indicator_sum_eq_count (durations : List ℕ) :
    (durations.map (fun x : ℕ => if TargetFrameTime < (x : ℚ) then (1 : ℚ) else 0)).sum =
      ((durations.filter (fun x : ℕ => TargetFrameTime < (x : ℚ))).length : ℚ) := by
  induction durations with
  | nil => simp
  | cons d rest ih =>
    by_cases h : TargetFrameTime < (d : ℚ)
    · simp [List.filter_cons, h, ih]
      ring
    · simp [List.filter_cons, h, ih]

/-- C3 counterexample: the configured target is 45 FPS, not 60, and at
that target a 20 ms frame does not count toward the missed-frame
percentage (a run of one frame of 20 ms has 0 percent missed). -/
theorem target_fps_not_sixty : TargetFPS ≠ 60 ∧ percent_missed_of [20 * 10 ^ 6] = 0 :=
  ⟨by decide, by norm_num [percent_missed_of, TargetFrameTime, NanosPerSecond, TargetFPS]⟩

/-- C3 amended: the missed-frame percentage counts exactly the frames
whose duration strictly exceeds `target_ns = 1e9 / target_fps`, for the
fixed constant `target_fps = 45` (target frame time about 22.22 ms): a
23 ms frame counts toward it, while 20 ms and 10 ms frames do not. -/
theorem percent_missed_counts_strictly_over_target (durations : List ℕ)
    (h : durations ≠ []) :
    percent_missed_of durations =
        ((durations.filter (fun x : ℕ => TargetFrameTime < (x : ℚ))).length : ℚ) /
          (durations.length : ℚ) * 100 ∧
      TargetFrameTime = (10 ^ 9 : ℚ) / 45 ∧
      percent_missed_of [23 * 10 ^ 6] = 100 ∧
      percent_missed_of [20 * 10 ^ 6] = 0 ∧
      percent_missed_of [10 * 10 ^ 6] = 0 := by
  refine ⟨?_, by norm_num [TargetFrameTime, NanosPerSecond, TargetFPS],
    by norm_num [percent_missed_of, TargetFrameTime, NanosPerSecond, TargetFPS],
    by norm_num [percent_missed_of, TargetFrameTime, NanosPerSecond, TargetFPS],
    by norm_num [percent_missed_of, TargetFrameTime, NanosPerSecond, TargetFPS]⟩
  unfold percent_missed_of
  rw [indicator_sum_eq_count]

theorem percent_missed_counts_strictly_over_target_witness :
    ([20 * 10 ^ 6, 23 * 10 ^ 6] : List ℕ) ≠ [] ∧
      (percent_missed_of [20 * 10 ^ 6, 23 * 10 ^ 6] =
          ((([20 * 10 ^ 6, 23 * 10 ^ 6] : List ℕ).filter
              (fun x : ℕ => TargetFrameTime < (x : ℚ))).length : ℚ) /
            (([20 * 10 ^ 6, 23 * 10 ^ 6] : List ℕ).length : ℚ) * 100 ∧
        TargetFrameTime = (10 ^ 9 : ℚ) / 45 ∧
        percent_missed_of [23 * 10 ^ 6] = 100 ∧
        percent_missed_of [20 * 10 ^ 6] = 0 ∧
        percent_missed_of [10 * 10 ^ 6] = 0) :=
  ⟨by decide, percent_missed_counts_strictly_over_target [20 * 10 ^ 6, 23 * 10 ^ 6]
    (by decide)⟩

/-! ### State aggregation -/

theorem updateState_values_sum (m : List (ℕ × ℚ)) (s : ℕ) (v : ℚ) :
    ((updateState m s v).map Prod.snd).sum = (m.map Prod.snd).sum + v := by
  induction m with
  | nil => simp [updateState]
  | cons p rest ih =>
    obtain ⟨k, w⟩ := p
    by_cases h : k = s
    · simp [updateState, h]
      ring
    · simp [updateState, h, ih]
      ring

theorem stateDurations_values_sum (frames : List (ℕ × ℕ)) :
    ((stateDurations frames).map Prod.snd).sum =
      (((frames.map Prod.fst).sum : ℕ) : ℚ) / (NonosPerMilli : ℚ) := by
  suffices hgen : ∀ m : List (ℕ × ℚ),
      ((frames.foldl (fun m p => updateState m p.2 ((p.1 : ℚ) / (NonosPerMilli : ℚ))) m).map
        Prod.snd).sum =
        (m.map Prod.snd).sum + (((frames.map Prod.fst).sum : ℕ) : ℚ) / (NonosPerMilli : ℚ) by
    simpa [stateDurations] using hgen []
  induction frames with
  | nil => simp
  | cons p rest ih =>
    intro m
    simp only [List.foldl_cons, List.map_cons, List.sum_cons]
    rw [ih, updateState_values_sum]
    push_cast
    ring

/-- C6 counterexample: with a gameplay-state filter the per-state
duration map still accounts for all parsed frames while
`total_duration_ms` covers only the kept ones, so the sums differ: for
frames [(10 ms, state 0), (20 ms, state 1)] filtered to state 0, the
state durations sum to 30 ms but the total is 10 ms. -/
theorem state_durations_sum_ne_total_when_filtered :
    stateDurationSum (buildRun (some 0) none none [(10 ^ 7, 0), (2 * 10 ^ 7, 1)]) ≠
      (buildRun (some 0) none none [(10 ^ 7, 0), (2 * 10 ^ 7, 1)]).total_duration_ms := by
  norm_num [stateDurationSum, buildRun, stateDurations, updateState, dropFrontPairsOpt,
    durationCapPairsOpt, NonosPerMilli]

/-- C6 amended: for every run constructed with no gameplay-state filter
and no time-window trimming, the sum of the per-state duration map
values equals the total duration in milliseconds (exactly, in rational
arithmetic). -/
theorem state_durations_sum_eq_total (frames : List (ℕ × ℕ)) :
    stateDurationSum (buildRun none none none frames) =
      (buildRun none none none frames).total_duration_ms := by
  show ((stateDurations frames).map Prod.snd).sum =
    (((frames.map Prod.fst).sum : ℕ) : ℚ) / (NonosPerMilli : ℚ)
  exact stateDurations_values_sum frames

theorem find?_updateState_ne (m : List (ℕ × ℚ)) (k s : ℕ) (v : ℚ) (hks : k ≠ s) :
    (updateState m k v).find? (fun p => p.1 == s) = m.find? (fun p => p.1 == s) := by
  induction m with
  | nil =>
    simp only [updateState]
    rw [List.find?_cons_of_neg _ (by simp [hks]), List.find?_nil]
  | cons p rest ih =>
    obtain ⟨k2, w⟩ := p
    by_cases h : k2 = k
    · subst h
      simp only [updateState, eq_self_iff_true, if_true]
      rw [List.find?_cons_of_neg _ (by simp [hks]), List.find?_cons_of_neg _ (by simp [hks])]
    · simp only [updateState, if_neg h]
      by_cases h2 : k2 = s
      · subst h2
        rw [List.find?_cons_of_pos _ (by simp), List.find?_cons_of_pos _ (by simp)]
      · rw [List.find?_cons_of_neg _ (by simp [h2]), List.find?_cons_of_neg _ (by simp [h2])]
        exact ih

theorem find?_stateDurations_none (frames : List (ℕ × ℕ)) (s : ℕ)
    (h : ∀ p ∈ frames, p.2 ≠ s) :
    (stateDurations frames).find? (fun p => p.1 == s) = none := by
  suffices hgen : ∀ m : List (ℕ × ℚ), m.find? (fun p => p.1 == s) = none →
      (frames.foldl (fun m p => updateState m p.2 ((p.1 : ℚ) / (NonosPerMilli : ℚ))) m).find?
        (fun p => p.1 == s) = none by
    exact hgen [] rfl
  induction frames with
  | nil => intro m hm; simpa using hm
  | cons q rest ih =>
    intro m hm
    simp only [List.foldl_cons]
    refine ih (fun p hp => h p (by simp [hp])) _ ?_
    rw [find?_updateState_ne m q.2 s _ (h q (by simp))]
    exact hm

/-- C7: `time_in_state` returns 0 for a state never observed in the run
rather than raising; and for the run parsed from frames
[(10 ms, state 0), (10 ms, state 1), (10 ms, state 0)] it returns the
durations 20 ms, 10 ms and 0 (as seconds: 20/1000, 10/1000, 0) for
states 0, 1 and 2 respectively. -/
theorem time_in_state_unobserved_is_zero (frames : List (ℕ × ℕ)) (s : ℕ)
    (h : ∀ p ∈ frames, p.2 ≠ s) :
    time_in_state (buildRun none none none frames) s = 0 ∧
      (time_in_state (buildRun none none none [(10 ^ 7, 0), (10 ^ 7, 1), (10 ^ 7, 0)]) 0 =
          20 / 1000 ∧
        time_in_state (buildRun none none none [(10 ^ 7, 0), (10 ^ 7, 1), (10 ^ 7, 0)]) 1 =
          10 / 1000 ∧
        time_in_state (buildRun none none none [(10 ^ 7, 0), (10 ^ 7, 1), (10 ^ 7, 0)]) 2 =
          0) := by
  have hmap : (buildRun none none none
      [(10 ^ 7, 0), (10 ^ 7, 1), (10 ^ 7, 0)]).state_to_duration_ms = [(0, 20), (1, 10)] := by
    show stateDurations [(10 ^ 7, 0), (10 ^ 7, 1), (10 ^ 7, 0)] = [(0, 20), (1, 10)]
    norm_num [stateDurations, updateState, NonosPerMilli]
  refine ⟨?_, ?_, ?_, ?_⟩
  · have hm2 : (buildRun none none none frames).state_to_duration_ms =
      stateDurations frames := rfl
    rw [time_in_state, hm2, find?_stateDurations_none frames s h]
  · simp only [time_in_state, hmap]
    simp [List.find?, MillisPerSecond]
  · simp only [time_in_state, hmap]
    simp [List.find?, MillisPerSecond]
  · simp only [time_in_state, hmap]
    simp [List.find?, MillisPerSecond]

theorem time_in_state_unobserved_is_zero_witness :
    (∀ p ∈ ([(10 ^ 7, 0)] : List (ℕ × ℕ)), p.2 ≠ 5) ∧
      (time_in_state (buildRun none none none [(10 ^ 7, 0)]) 5 = 0 ∧
        (time_in_state (buildRun none none none [(10 ^ 7, 0), (10 ^ 7, 1), (10 ^ 7, 0)]) 0 =
            20 / 1000 ∧
          time_in_state (buildRun none none none [(10 ^ 7, 0), (10 ^ 7, 1), (10 ^ 7, 0)]) 1 =
            10 / 1000 ∧
          time_in_state (buildRun none none none [(10 ^ 7, 0), (10 ^ 7, 1), (10 ^ 7, 0)]) 2 =
            0)) :=
  ⟨by decide, time_in_state_unobserved_is_zero [(10 ^ 7, 0)] 5 (by decide)⟩

/-! ### Cross-run summarization -/

theorem summarize_foldl_shape (results : List Run) (summary_fns : List FrameTimesSummaryFn) :
    ∀ l1 l2 l3 l4 l5 l6 : List (FrameTimesSummaryFn × ℚ),
      summary_fns.foldl
          (fun m sf =>
            (summaryRow results sf).foldl (fun m kv => addSummaryEntry m kv.1 (sf, kv.2)) m)
          [("avg", l1), ("median", l2), ("p90", l3), ("p95", l4), ("missed_percent", l5),
            ("init_time", l6)] =
        [("avg", l1 ++ summary_fns.map (fun sf =>
            (sf, sf.fn (results.map (fun x => x.average_frametime_ms))))),
          ("median", l2 ++ summary_fns.map (fun sf => (sf, sf.fn (results.map median)))),
          ("p90", l3 ++ summary_fns.map (fun sf => (sf, sf.fn (results.map p90)))),
          ("p95", l4 ++ summary_fns.map (fun sf => (sf, sf.fn (results.map p95)))),
          ("missed_percent", l5 ++ summary_fns.map (fun sf =>
            (sf, sf.fn (results.map percent_missed)))),
          ("init_time", l6 ++ summary_fns.map (fun sf =>
            (sf, sf.fn (results.map (fun x => time_in_state x 0)))))] := by
  induction summary_fns with
  | nil =>
    intro l1 l2 l3 l4 l5 l6
    simp
  | cons sf fns ih =>
    intro l1 l2 l3 l4 l5 l6
    rw [List.foldl_cons]
    have hstep : (summaryRow results sf).foldl (fun m kv => addSummaryEntry m kv.1 (sf, kv.2))
        [("avg", l1), ("median", l2), ("p90", l3), ("p95", l4), ("missed_percent", l5),
          ("init_time", l6)] =
        [("avg", l1 ++ [(sf, sf.fn (results.map (fun x => x.average_frametime_ms)))]),
          ("median", l2 ++ [(sf, sf.fn (results.map median))]),
          ("p90", l3 ++ [(sf, sf.fn (results.map p90))]),
          ("p95", l4 ++ [(sf, sf.fn (results.map p95))]),
          ("missed_percent", l5 ++ [(sf, sf.fn (results.map percent_missed))]),
          ("init_time", l6 ++ [(sf, sf.fn (results.map (fun x => time_in_state x 0)))])] := by
      simp [summaryRow, addSummaryEntry]
    rw [hstep, ih]
    simp

theorem no_stable_subset_eq_all_runs (results : List Run)
    (summary_fns : List FrameTimesSummaryFn) (hne : summary_fns ≠ []) :
    summarize_frame_times_no_stable_subset results summary_fns =
      summarize_frame_times_all_runs results summary_fns := by
  match summary_fns, hne with
  | sf :: fns, _ =>
    unfold summarize_frame_times_no_stable_subset
    rw [List.foldl_cons]
    have hstep : (summaryRow results sf).foldl (fun m kv => addSummaryEntry m kv.1 (sf, kv.2))
        ([] : List (String × List (FrameTimesSummaryFn × ℚ))) =
        [("avg", [(sf, sf.fn (results.map (fun x => x.average_frametime_ms)))]),
          ("median", [(sf, sf.fn (results.map median))]),
          ("p90", [(sf, sf.fn (results.map p90))]),
          ("p95", [(sf, sf.fn (results.map p95))]),
          ("missed_percent", [(sf, sf.fn (results.map percent_missed))]),
          ("init_time", [(sf, sf.fn (results.map (fun x => time_in_state x 0)))])] := by
      simp [summaryRow, addSummaryEntry]
    rw [hstep, summarize_foldl_shape results fns]
    simp [summarize_frame_times_all_runs]

/-- C10 counterexample: for an empty run list, the stable-subset
computation feeds the empty medians list to np.percentile, which raises
(`none`), while the variant without that computation returns a summary
normally — so removing the stable-subset computation does change the
output of `summarize_frame_times`. -/
theorem summarize_raises_on_empty_dataset :
    summarize_frame_times [] [⟨"Median", fun _ => 0, SummaryKind.ABSOLUTE⟩] = none ∧
      summarize_frame_times_no_stable_subset []
          [⟨"Median", fun _ => 0, SummaryKind.ABSOLUTE⟩] =
        [("avg", [(⟨"Median", fun _ => 0, SummaryKind.ABSOLUTE⟩, 0)]),
          ("median", [(⟨"Median", fun _ => 0, SummaryKind.ABSOLUTE⟩, 0)]),
          ("p90", [(⟨"Median", fun _ => 0, SummaryKind.ABSOLUTE⟩, 0)]),
          ("p95", [(⟨"Median", fun _ => 0, SummaryKind.ABSOLUTE⟩, 0)]),
          ("missed_percent", [(⟨"Median", fun _ => 0, SummaryKind.ABSOLUTE⟩, 0)]),
          ("init_time", [(⟨"Median", fun _ => 0, SummaryKind.ABSOLUTE⟩, 0)])] := by
  constructor
  · simp [summarize_frame_times, data_low?, data_high?, percentile?]
  · simp [summarize_frame_times_no_stable_subset, summaryRow, addSummaryEntry]

/-- C10 amended: for every non-empty run list and every list of summary
functions, the cross-run summary equals that of the variant with the
stable-subset computation removed, and (for a non-empty
summary-function list) the closed form in which every aggregator is
applied to each per-run series taken over all input runs; on an empty
run list the stable-subset computation itself raises, so the
equivalence needs the non-emptiness restriction. -/
theorem summarize_frame_times_ignores_stable_subset (results : List Run)
    (summary_fns : List FrameTimesSummaryFn) (h : results ≠ []) :
    summarize_frame_times results summary_fns =
        some (summarize_frame_times_no_stable_subset results summary_fns) ∧
      (summary_fns ≠ [] →
        summarize_frame_times results summary_fns =
          some (summarize_frame_times_all_runs results summary_fns)) := by
  have hlen : (results.mergeSort (fun a b => median a ≤ median b)).length = results.length := by
    simp
  obtain ⟨r0, rs, hcons⟩ : ∃ r0 rs,
      results.mergeSort (fun a b => median a ≤ median b) = r0 :: rs := by
    cases hm : results.mergeSort (fun a b => median a ≤ median b) with
    | nil =>
      rw [hm] at hlen
      exact absurd (List.length_eq_zero.mp hlen.symm) h
    | cons a as => exact ⟨a, as, rfl⟩
  have hform : summarize_frame_times results summary_fns =
      some (summarize_frame_times_no_stable_subset results summary_fns) := by
    unfold summarize_frame_times
    rw [hcons]
    simp only [List.map_cons, data_low?, data_high?, percentile?]
    rfl
  refine ⟨hform, fun hne => ?_⟩
  rw [hform, no_stable_subset_eq_all_runs results summary_fns hne]

theorem summarize_frame_times_ignores_stable_subset_witness :
    ([buildRun none none none [(10000000, 0)]] : List Run) ≠ [] ∧
      ([⟨"Median", fun _ => 0, SummaryKind.ABSOLUTE⟩] : List FrameTimesSummaryFn) ≠ [] ∧
      (summarize_frame_times [buildRun none none none [(10000000, 0)]]
            [⟨"Median", fun _ => 0, SummaryKind.ABSOLUTE⟩] =
          some (summarize_frame_times_no_stable_subset
            [buildRun none none none [(10000000, 0)]]
            [⟨"Median", fun _ => 0, SummaryKind.ABSOLUTE⟩]) ∧
        summarize_frame_times [buildRun none none none [(10000000, 0)]]
            [⟨"Median", fun _ => 0, SummaryKind.ABSOLUTE⟩] =
          some (summarize_frame_times_all_runs [buildRun none none none [(10000000, 0)]]
            [⟨"Median", fun _ => 0, SummaryKind.ABSOLUTE⟩])) :=
  ⟨by simp, by simp,
    (summarize_frame_times_ignores_stable_subset [buildRun none none none [(10000000, 0)]]
      [⟨"Median", fun _ => 0, SummaryKind.ABSOLUTE⟩] (by simp)).1,
    (summarize_frame_times_ignores_stable_subset [buildRun none none none [(10000000, 0)]]
      [⟨"Median", fun _ => 0, SummaryKind.ABSOLUTE⟩] (by simp)).2 (by simp)⟩

/-! ### Percentile engine -/

theorem sorted_getD_le (s : List ℚ) (hs : List.Sorted (· ≤ ·) s) (a b : ℕ) (hab : a ≤ b)
    (hb : b < s.length) : s.getD a 0 ≤ s.getD b 0 := by
  have ha : a < s.length := lt_of_le_of_lt hab hb
  rw [List.getD_eq_getElem s 0 ha, List.getD_eq_getElem s 0 hb]
  exact @List.Sorted.rel_get_of_le ℚ (· ≤ ·) _ s hs ⟨a, ha⟩ ⟨b, hb⟩ hab

theorem toNat_floor_le (r : ℚ) (h : 0 ≤ r) : ((Int.toNat ⌊r⌋ : ℕ) : ℚ) ≤ r := by
  have h2 : ((Int.toNat ⌊r⌋ : ℤ) : ℚ) ≤ r := by
    rw [Int.toNat_of_nonneg (Int.floor_nonneg.mpr h)]
    exact Int.floor_le r
  exact_mod_cast h2

theorem lt_toNat_floor_add_one (r : ℚ) (h : 0 ≤ r) : r < ((Int.toNat ⌊r⌋ : ℕ) : ℚ) + 1 := by
  have h2 : r < ((Int.toNat ⌊r⌋ : ℤ) : ℚ) + 1 := by
    rw [Int.toNat_of_nonneg (Int.floor_nonneg.mpr h)]
    exact Int.lt_floor_add_one r
  exact_mod_cast h2

theorem toNat_floor_mono {r₁ r₂ : ℚ} (h : r₁ ≤ r₂) : Int.toNat ⌊r₁⌋ ≤ Int.toNat ⌊r₂⌋ :=
  Int.toNat_le_toNat (Int.floor_le_floor h)

theorem toNat_floor_le_of_le_natCast (r : ℚ) (m : ℕ) (h : r ≤ (m : ℚ)) :
    Int.toNat ⌊r⌋ ≤ m := by
  have h2 : ⌊r⌋ ≤ (m : ℤ) := by
    have h3 := Int.floor_le_floor h
    simpa using h3
  omega

theorem interpAt_mono (s : List ℚ) (hs : List.Sorted (· ≤ ·) s) (hne : s ≠ [])
    {r₁ r₂ : ℚ} (h0 : 0 ≤ r₁) (h12 : r₁ ≤ r₂) (h2 : r₂ ≤ ((s.length - 1 : ℕ) : ℚ)) :
    interpAt s r₁ ≤ interpAt s r₂ := by
  have hN : 1 ≤ s.length := List.length_pos.mpr hne
  have h01 : (0 : ℚ) ≤ r₂ := le_trans h0 h12
  set i₁ := Int.toNat ⌊r₁⌋ with hi₁def
  set i₂ := Int.toNat ⌊r₂⌋ with hi₂def
  have hi₁le : (i₁ : ℚ) ≤ r₁ := toNat_floor_le r₁ h0
  have hi₂le : (i₂ : ℚ) ≤ r₂ := toNat_floor_le r₂ h01
  have hr₁lt : r₁ < (i₁ : ℚ) + 1 := lt_toNat_floor_add_one r₁ h0
  have hi₂N : i₂ ≤ s.length - 1 := toNat_floor_le_of_le_natCast r₂ _ h2
  have hi₁₂ : i₁ ≤ i₂ := toNat_floor_mono h12
  have hi₁N : i₁ ≤ s.length - 1 := le_trans hi₁₂ hi₂N
  set j₁ := min (i₁ + 1) (s.length - 1) with hj₁def
  set j₂ := min (i₂ + 1) (s.length - 1) with hj₂def
  have hij₁ : i₁ ≤ j₁ := le_min (by omega) hi₁N
  have hij₂ : i₂ ≤ j₂ := le_min (by omega) hi₂N
  have hj₁N : j₁ < s.length := by omega
  have hj₂N : j₂ < s.length := by omega
  have hs₁ : s.getD i₁ 0 ≤ s.getD j₁ 0 := sorted_getD_le s hs i₁ j₁ hij₁ hj₁N
  have hs₂ : s.getD i₂ 0 ≤ s.getD j₂ 0 := sorted_getD_le s hs i₂ j₂ hij₂ hj₂N
  rcases Nat.lt_or_ge i₁ i₂ with hlt | hge
  · have hmid : s.getD j₁ 0 ≤ s.getD i₂ 0 := sorted_getD_le s hs j₁ i₂ (by omega) (by omega)
    have hup : interpAt s r₁ ≤ s.getD j₁ 0 := by
      have hkey : 0 ≤ (s.getD j₁ 0 - s.getD i₁ 0) * (1 - (r₁ - (i₁ : ℚ))) :=
        mul_nonneg (by linarith) (by linarith)
      show s.getD i₁ 0 + (r₁ - (i₁ : ℚ)) * (s.getD j₁ 0 - s.getD i₁ 0) ≤ s.getD j₁ 0
      nlinarith [hkey]
    have hdown : s.getD i₂ 0 ≤ interpAt s r₂ := by
      have hkey : 0 ≤ (r₂ - (i₂ : ℚ)) * (s.getD j₂ 0 - s.getD i₂ 0) :=
        mul_nonneg (by linarith) (by linarith)
      show s.getD i₂ 0 ≤ s.getD i₂ 0 + (r₂ - (i₂ : ℚ)) * (s.getD j₂ 0 - s.getD i₂ 0)
      linarith
    linarith
  · have heq : i₁ = i₂ := le_antisymm hi₁₂ hge
    have hjeq : j₁ = j₂ := by rw [hj₁def, hj₂def, heq]
    show s.getD i₁ 0 + (r₁ - (i₁ : ℚ)) * (s.getD j₁ 0 - s.getD i₁ 0) ≤
      s.getD i₂ 0 + (r₂ - (i₂ : ℚ)) * (s.getD j₂ 0 - s.getD i₂ 0)
    rw [← heq, ← hjeq]
    have hstep : (r₁ - (i₁ : ℚ)) * (s.getD j₁ 0 - s.getD i₁ 0) ≤
        (r₂ - (i₁ : ℚ)) * (s.getD j₁ 0 - s.getD i₁ 0) :=
      mul_le_mul_of_nonneg_right (by linarith) (by linarith)
    linarith

theorem percentile_mono (data : List ℚ) (hne : data ≠ []) {p q : ℕ} (hpq : p ≤ q)
    (hq : q ≤ 100) : percentile data p ≤ percentile data q := by
  have hN : 1 ≤ data.length := List.length_pos.mpr hne
  have hn1 : (0 : ℚ) ≤ (data.length : ℚ) - 1 := by
    have hcast : (1 : ℚ) ≤ (data.length : ℚ) := by exact_mod_cast hN
    linarith
  have hsorted : List.Sorted (· ≤ ·) data.mergeSort := List.sorted_mergeSort' data
  have hlen : data.mergeSort.length = data.length := by simp
  have hne2 : data.mergeSort ≠ [] := by
    intro hcontra
    rw [hcontra] at hlen
    simp at hlen
    omega
  unfold percentile
  apply interpAt_mono _ hsorted hne2
  · have hp0 : (0 : ℚ) ≤ (p : ℚ) / 100 := by positivity
    exact mul_nonneg hp0 hn1
  · apply mul_le_mul_of_nonneg_right _ hn1
    have hc : (p : ℚ) ≤ (q : ℚ) := by exact_mod_cast hpq
    linarith
  · rw [hlen]
    have hcast : ((data.length - 1 : ℕ) : ℚ) = (data.length : ℚ) - 1 := by
      push_cast [hN]
      ring
    rw [hcast]
    have hq1 : (q : ℚ) / 100 ≤ 1 := by
      have hc : (q : ℚ) ≤ 100 := by exact_mod_cast hq
      linarith
    nlinarith [hn1]

/-- C1: for every run with at least one frame, the percentile table has
exactly 100 entries (percentiles 0 to 99) and is monotonically
non-decreasing from each entry to the next. -/
theorem percentile_table_100_monotone (frames : List ℕ) (h : frames ≠ []) :
    (percentileTable frames).length = 100 ∧
      List.Chain' (· ≤ ·) (percentileTable frames) := by
  constructor
  · simp [percentileTable]
  · unfold percentileTable
    rw [List.chain'_map]
    refine (List.chain'_range_succ _ 99).mpr ?_
    intro m hm
    have hne : frames.map (fun f : ℕ => (f : ℚ)) ≠ [] := by
      intro hc
      exact h (List.map_eq_nil_iff.mp hc)
    have hmono := percentile_mono (frames.map (fun f : ℕ => (f : ℚ))) hne (Nat.le_succ m)
      (by omega)
    have hpos : (0 : ℚ) < (NonosPerMilli : ℚ) := by norm_num [NonosPerMilli]
    exact (div_le_div_iff_of_pos_right hpos).mpr hmono

theorem percentile_table_100_monotone_witness :
    ([10 ^ 7] : List ℕ) ≠ [] ∧
      ((percentileTable [10 ^ 7]).length = 100 ∧
        List.Chain' (· ≤ ·) (percentileTable [10 ^ 7])) :=
  ⟨by decide, percentile_table_100_monotone [10 ^ 7] (by decide)⟩

/-! ### FPS bucketizer -/

theorem zip_map_fst_snd (l : List (ℕ × ℕ)) : (l.map Prod.fst).zip (l.map Prod.snd) = l := by
  induction l with
  | nil => rfl
  | cons p rest ih =>
    obtain ⟨a, b⟩ := p
    simp only [List.map_cons, List.zip_cons_cons, ih]

theorem getD_set_lt (bins : List (ℕ × ℕ)) (idx : ℕ) (v : ℕ × ℕ) (b : ℕ)
    (hidx : idx < bins.length) :
    (bins.set idx v).getD b (0, 0) = if idx = b then v else bins.getD b (0, 0) := by
  rw [List.getD_eq_getElem?_getD, List.getElem?_set, List.getD_eq_getElem?_getD]
  by_cases h : idx = b
  · subst h
    simp [hidx]
  · simp [h]

theorem getD_replicate_pair (n b : ℕ) :
    (List.replicate n ((0 : ℕ), (0 : ℕ))).getD b (0, 0) = (0, 0) := by
  rw [List.getD_eq_getElem?_getD, List.getElem?_replicate]
  by_cases h : b < n <;> simp [h]

theorem length_filter_cons (a : ℕ) (l : List ℕ) (p : ℕ → Bool) :
    (List.filter p (a :: l)).length = (if p a then 1 else 0) + (List.filter p l).length := by
  by_cases h : p a <;> simp [List.filter_cons, h, Nat.add_comm]

theorem length_filter_map_succ (l : List ℕ) (p : ℕ → Bool) :
    ((l.map Nat.succ).filter p).length = (l.filter (fun i => p (i + 1))).length := by
  induction l with
  | nil => rfl
  | cons a rest ih =>
    simp only [List.map_cons, List.filter_cons, Nat.succ_eq_add_one]
    by_cases h : p (a + 1)
    · simp [h, ih]
    · simp [h, ih]

theorem fpsGo_length (fs : List (ℕ × ℕ)) :
    ∀ (bins : List (ℕ × ℕ)) (curr : ℕ), (fpsGo bins curr fs).length = bins.length := by
  induction fs with
  | nil => intro bins curr; rfl
  | cons p rest ih =>
    intro bins curr
    obtain ⟨f, s⟩ := p
    simp only [fpsGo]
    rw [ih]
    exact List.length_set bins _ _

theorem fpsGo_count (fs : List (ℕ × ℕ)) :
    ∀ (bins : List (ℕ × ℕ)) (curr : ℕ),
      (curr + (fs.map Prod.fst).sum) / NanosPerSecond < bins.length →
      ∀ b : ℕ,
        ((fpsGo bins curr fs).getD b (0, 0)).1 =
          (bins.getD b (0, 0)).1 +
            ((List.range fs.length).filter
              (fun idx => (curr + ((fs.map Prod.fst).take (idx + 1)).sum) / NanosPerSecond
                == b)).length := by
  induction fs with
  | nil =>
    intro bins curr hlen b
    simp [fpsGo]
  | cons p rest ih =>
    intro bins curr hlen b
    obtain ⟨f, s⟩ := p
    have hsum : curr + (((f, s) :: rest).map Prod.fst).sum =
        curr + f + (rest.map Prod.fst).sum := by
      simp [Nat.add_assoc]
    have hidx : (curr + f) / NanosPerSecond < bins.length := by
      refine lt_of_le_of_lt (Nat.div_le_div_right ?_) hlen
      simp only [List.map_cons, List.sum_cons]
      omega
    have hlen2 : (curr + f + (rest.map Prod.fst).sum) / NanosPerSecond <
        (bins.set ((curr + f) / NanosPerSecond)
          ((bins.getD ((curr + f) / NanosPerSecond) (0, 0)).1 + 1, s)).length := by
      rw [List.length_set]
      rw [hsum] at hlen
      exact hlen
    simp only [fpsGo]
    rw [ih _ (curr + f) hlen2 b]
    rw [getD_set_lt bins _ _ b hidx]
    have hranges : ((List.range ((f, s) :: rest).length).filter
        (fun idx => (curr + ((((f, s) :: rest).map Prod.fst).take (idx + 1)).sum) /
          NanosPerSecond == b)).length =
        (if (curr + f) / NanosPerSecond == b then 1 else 0) +
          ((List.range rest.length).filter
            (fun idx => (curr + f + ((rest.map Prod.fst).take (idx + 1)).sum) /
              NanosPerSecond == b)).length := by
      rw [List.length_cons, List.range_succ_eq_map, length_filter_cons,
        length_filter_map_succ]
      simp [List.take_succ_cons, Nat.add_assoc]
    rw [hranges]
    by_cases hb : (curr + f) / NanosPerSecond = b <;> simp [hb] <;> omega

theorem floor_total_ms (total : ℕ) :
    Nat.floor (((total : ℚ) / (NonosPerMilli : ℚ)) / 1000) = total / NanosPerSecond := by
  have h1 : ((total : ℚ) / (NonosPerMilli : ℚ)) / 1000 = (total : ℚ) / ((10 ^ 9 : ℕ) : ℚ) := by
    rw [div_div]
    norm_num [NonosPerMilli]
  rw [h1, Nat.floor_div_nat (total : ℚ) (10 ^ 9), Nat.floor_natCast]
  rfl

/-- C4 counterexample: for a run of a single 0.5-second frame
(total_duration_ms = 500) the bucketizer produces 1 bucket, while the
claimed formula ceil(total_duration_ms / 1000) + 1 gives 2. -/
theorem fps_bucket_count_not_ceil :
    (fps_over_time (buildRun none none none [(5 * 10 ^ 8, 0)])).length = 1 ∧
      Nat.ceil ((buildRun none none none [(5 * 10 ^ 8, 0)]).total_duration_ms / 1000) + 1 =
        2 := by
  have htot : (buildRun none none none [(5 * 10 ^ 8, 0)]).total_duration_ms = 500 := by
    show ((([(5 * 10 ^ 8, 0)] : List (ℕ × ℕ)).map Prod.fst).sum : ℚ) / (NonosPerMilli : ℚ) =
      500
    norm_num [NonosPerMilli]
  constructor
  · rw [fps_over_time, fpsGo_length, List.length_replicate, htot]
    norm_num
  · rw [htot]
    have hc : Nat.ceil ((500 : ℚ) / 1000) = 1 := by
      rw [Nat.ceil_eq_iff (by norm_num)]
      norm_num
    rw [hc]

/-- C4 amended: for every constructed run, the FPS bucketizer assigns
each frame the bucket index floor(cumulative_duration_ns_after_this_frame
/ 1e9) — bucket b holds exactly the frames whose cumulative duration
lands in it — and produces exactly floor(total_duration_ms / 1000) + 1
buckets (not ceil + 1). -/
theorem fps_over_time_floor_buckets (gs gd dfs : Option ℕ) (frames : List (ℕ × ℕ)) :
    (fps_over_time (buildRun gs gd dfs frames)).length =
        Nat.floor ((buildRun gs gd dfs frames).total_duration_ms / 1000) + 1 ∧
      ∀ b : ℕ,
        ((fps_over_time (buildRun gs gd dfs frames)).getD b (0, 0)).1 =
          ((List.range (buildRun gs gd dfs frames).raw_frametimes.length).filter
            (fun idx =>
              ((buildRun gs gd dfs frames).raw_frametimes.take (idx + 1)).sum /
                NanosPerSecond == b)).length := by
  set r := buildRun gs gd dfs frames with hr
  obtain ⟨X, hraw, hstates, htotal⟩ : ∃ X : List (ℕ × ℕ),
      r.raw_frametimes = X.map Prod.fst ∧ r.frame_states = X.map Prod.snd ∧
        r.total_duration_ms = (((X.map Prod.fst).sum : ℕ) : ℚ) / (NonosPerMilli : ℚ) :=
    ⟨_, rfl, rfl, rfl⟩
  constructor
  · rw [fps_over_time, fpsGo_length, List.length_replicate]
  · intro b
    have hfloor : Nat.floor (r.total_duration_ms / 1000) =
        (X.map Prod.fst).sum / NanosPerSecond := by
      rw [htotal]
      exact floor_total_ms _
    have hzip : r.raw_frametimes.zip r.frame_states = X := by
      rw [hraw, hstates, zip_map_fst_snd]
    rw [fps_over_time, hzip, hfloor]
    have hcount := fpsGo_count X
      (List.replicate ((X.map Prod.fst).sum / NanosPerSecond + 1) (0, 0)) 0
      (by
        rw [List.length_replicate]
        simp only [Nat.zero_add]
        omega) b
    rw [hcount, getD_replicate_pair]
    simp only [Nat.zero_add]
    rw [hraw]
    congr 1
    rw [List.length_map]

/-! ### Representative-run selection -/

theorem percentileTable_getD (durations : List ℕ) (p : ℕ) (hp : p < 100) :
    (percentileTable durations).getD p 0 =
      percentile (durations.map (fun f : ℕ => (f : ℚ))) p / (NonosPerMilli : ℚ) := by
  rw [percentileTable, List.getD_eq_getElem?_getD, List.getElem?_map,
    List.getElem?_range hp]
  rfl

theorem median_single (d : ℕ) (st : ℕ) :
    median (buildRun none none none [(d, st)]) = (d : ℚ) / (NonosPerMilli : ℚ) := by
  show (percentileTable [d]).getD 50 0 = (d : ℚ) / (NonosPerMilli : ℚ)
  rw [percentileTable_getD _ 50 (by norm_num)]
  congr 1
  rw [percentile]
  simp [interpAt]

/-- C9: the representative runs are picked from the by-median-ascending
sorted permutation of the dataset, at the 5th-percentile rank (low), the
middle rank (median) and the 95th-percentile rank (high); in particular,
for three runs with medians 10, 20 and 30 ms, the selected median
representative is the run whose median is 20 ms. -/
theorem select_representatives_ranks (results : List Run) (h : results ≠ []) :
    (∃ s : List Run, results.Perm s ∧
        List.Pairwise (fun a b => median a ≤ median b) s ∧
        select_representatives results =
          (s.getD (s.length * 5 / 100) emptyRun, s.getD (s.length / 2) emptyRun,
            s.getD (s.length * 95 / 100) emptyRun)) ∧
      median (select_representatives
          [buildRun none none none [(10000000, 0)], buildRun none none none [(20000000, 0)],
            buildRun none none none [(30000000, 0)]]).2.1 = 20 := by
  constructor
  · refine ⟨results.mergeSort (fun a b => median a ≤ median b), ?_, ?_, rfl⟩
    · exact (List.mergeSort_perm results _).symm
    · have hp := @List.sorted_mergeSort Run (fun a b : Run => decide (median a ≤ median b))
        (fun a b c h₁ h₂ => by
          simp only [decide_eq_true_eq] at h₁ h₂ ⊢
          exact le_trans h₁ h₂)
        (fun a b => by
          simp only [Bool.or_eq_true, decide_eq_true_eq]
          exact le_total (median a) (median b))
        results
      exact hp.imp (fun hab => by simpa using hab)
  · have h1 : median (buildRun none none none [(10000000, 0)]) = 10 := by
      rw [median_single]
      norm_num [NonosPerMilli]
    have h2 : median (buildRun none none none [(20000000, 0)]) = 20 := by
      rw [median_single]
      norm_num [NonosPerMilli]
    have h3 : median (buildRun none none none [(30000000, 0)]) = 30 := by
      rw [median_single]
      norm_num [NonosPerMilli]
    have hsorted : List.mergeSort
        [buildRun none none none [(10000000, 0)], buildRun none none none [(20000000, 0)],
          buildRun none none none [(30000000, 0)]]
        (fun a b => decide (median a ≤ median b)) =
        [buildRun none none none [(10000000, 0)], buildRun none none none [(20000000, 0)],
          buildRun none none none [(30000000, 0)]] := by
      apply List.mergeSort_of_sorted
      simp [h1, h2, h3]
      norm_num
    show median ((List.mergeSort
        [buildRun none none none [(10000000, 0)], buildRun none none none [(20000000, 0)],
          buildRun none none none [(30000000, 0)]]
        (fun a b => decide (median a ≤ median b))).getD
      ((List.mergeSort
        [buildRun none none none [(10000000, 0)], buildRun none none none [(20000000, 0)],
          buildRun none none none [(30000000, 0)]]
        (fun a b => decide (median a ≤ median b))).length / 2) emptyRun) = 20
    rw [hsorted]
    simpa using h2

theorem select_representatives_ranks_witness :
    ([buildRun none none none [(10000000, 0)], buildRun none none none [(20000000, 0)],
        buildRun none none none [(30000000, 0)]] : List Run) ≠ [] ∧
      ((∃ s : List Run,
          List.Perm
            [buildRun none none none [(10000000, 0)], buildRun none none none [(20000000, 0)],
              buildRun none none none [(30000000, 0)]] s ∧
          List.Pairwise (fun a b => median a ≤ median b) s ∧
          select_representatives
              [buildRun none none none [(10000000, 0)],
                buildRun none none none [(20000000, 0)],
                buildRun none none none [(30000000, 0)]] =
            (s.getD (s.length * 5 / 100) emptyRun, s.getD (s.length / 2) emptyRun,
              s.getD (s.length * 95 / 100) emptyRun)) ∧
        median (select_representatives
            [buildRun none none none [(10000000, 0)], buildRun none none none [(20000000, 0)],
              buildRun none none none [(30000000, 0)]]).2.1 = 20) :=
  ⟨by simp,
    select_representatives_ranks
      [buildRun none none none [(10000000, 0)], buildRun none none none [(20000000, 0)],
        buildRun none none none [(30000000, 0)]] (by simp)⟩

end AnalyzeFrametimes
